import Mathlib

/-
Verification of the coral sequence core (coral/sequence/_sequence.py).

Shallow embedding conventions:
. Python strings are modelled as List Char; Char.toUpper and Char.toLower
  model the ASCII case maps used by str.upper and str.lower.
. Exceptions are modelled by Except PyErr; each raise site of the source
  is mapped to the corresponding PyErr constructor.
. The regular expressions built by the source are of the restricted shape
  produced there: a literal pattern whose wildcard character has been
  replaced by a dot, wrapped in a lookahead for overlap search.  Matching
  of such a pattern is embedded directly: a dot matches any character,
  every other pattern character matches exactly itself.
-/

namespace Coral

inductive PyErr where
  | alphabetError
  | typeError
  | valueError
  | zeroDivisionError
deriving DecidableEq

/-- The state of a Sequence instance: seq, alphabet (its symbols string),
any_char and name, in the order the constructor assigns them. -/
structure PySeq where
  seq : List Char
  alphabet : List Char
  anyChar : Char
  name : List Char
deriving DecidableEq

/-- The alphabet check of Sequence.__init__: re.search of the class
complementing symbols plus symbols.lower() finds nothing, i.e. every
character of sq lies in symbols or lowercased symbols. -/
def validChars (sq alphabet : List Char) : Bool :=
  sq.all (fun c => decide (c ∈ alphabet ++ alphabet.map Char.toLower))

/-- Sequence.__init__(sequence, alphabet, skip_checks, any_char, name).
With skip_checks the raw sequence is stored unvalidated; otherwise the
uppercased sequence is stored after the alphabet check, and AlphabetError
is raised when the check fails.  A missing name becomes the empty string. -/
def Sequence.init (sequence alphabet : List Char) (skipChecks : Bool)
    (anyChar : Char) (name : Option (List Char)) : Except PyErr PySeq :=
  if skipChecks then
    Except.ok ⟨sequence, alphabet, anyChar, name.getD []⟩
  else
    if validChars (sequence.map Char.toUpper) alphabet then
      Except.ok ⟨sequence.map Char.toUpper, alphabet, anyChar, name.getD []⟩
    else
      Except.error PyErr.alphabetError

/-- Sequence.copy: type(self)(self.seq, alphabet=self.alphabet,
any_char=self.any_char, skip_checks=True).  The name argument is not
passed, so the copy gets the default name, the empty string.  This is the
skip_checks branch of Sequence.init (see copy_is_skip_checks_init). -/
def Sequence.copy (x : PySeq) : PySeq :=
  ⟨x.seq, x.alphabet, x.anyChar, []⟩

/-- Translated-pattern character match: after pattern.replace(any_char, dot)
a dot matches any character, anything else matches itself. -/
def charMatch (p c : Char) : Bool :=
  (p == '.') || (p == c)

/-- The translated pattern matches a prefix of the remaining string. -/
def matchesFrom : List Char → List Char → Bool
  | [], _ => true
  | _ :: _, [] => false
  | p :: ps, c :: cs => charMatch p c && matchesFrom ps cs

/-- The lookahead regex matches the string at position i (the pattern fits
entirely inside the string starting at i; no wraparound). -/
def matchesAt (s p : List Char) (i : Nat) : Bool :=
  matchesFrom p (s.drop i)

/-- The positions produced by re.finditer over the lookahead pattern:
every i in 0..len(s) at which the pattern matches, in scan order. -/
def linearMatches (s p : List Char) : List Nat :=
  (List.range (s.length + 1)).filter (fun i => matchesAt s p i)

/-- str.upper on a string. -/
def upperStr (s : List Char) : List Char := s.map Char.toUpper

/-- pattern.replace(any_char, dot). -/
def translate (p : List Char) (anyChar : Char) : List Char :=
  p.map (fun c => if c = anyChar then '.' else c)

/-- Sequence.locate(pattern): raises ValueError when the pattern is longer
than the sequence; otherwise uppercases and wildcard-translates the
pattern, collects the finditer lookahead positions over self.seq, and
reduces each modulo len(self).  When the sequence is empty and a match
exists, the modulo is a division by zero (ZeroDivisionError). -/
def Sequence.locate (x : PySeq) (pattern : List Char) : Except PyErr (List Nat) :=
  if pattern.length > x.seq.length then
    Except.error PyErr.valueError
  else
    if x.seq.length = 0 ∧ linearMatches x.seq (translate (upperStr pattern) x.anyChar) ≠ [] then
      Except.error PyErr.zeroDivisionError
    else
      Except.ok ((linearMatches x.seq (translate (upperStr pattern) x.anyChar)).map
        (fun i => i % x.seq.length))

/-- Sequence.__contains__(query): uppercases and wildcard-translates the
query then re.search over str(self); existence of a match position. -/
def Sequence.contains (x : PySeq) (query : List Char) : Bool :=
  (List.range (x.seq.length + 1)).any
    (fun i => matchesAt x.seq (translate (upperStr query) x.anyChar) i)

/-- The circular-ring matching predicate asserted by the specification for
locate: the pattern, read around the ring, matches at position i with every
index reduced modulo the sequence length.  Stated from the words of the
spec, to be compared with the behaviour of Sequence.locate. -/
def circularMatchAt (s p : List Char) (i : Nat) : Bool :=
  (List.range p.length).all
    (fun j => charMatch (p.getD j '.') (s.getD ((i + j) % s.length) '.'))

/-- The outcome of the single coercion attempt type(self)(other) made by
Sequence.__add__ for an operand of a different concrete type.  The
concrete single-argument constructors of the subclasses are outside the
given sources, so the attempt is represented by its outcome: success with
the coerced operand, an AttributeError (the operand has no residue
representation), or some other exception. -/
inductive CoerceOutcome where
  | success (y : PySeq)
  | attributeError
  | raises (e : PyErr)

/-- The right operand of Sequence.__add__: either an instance of the same
concrete type, or a value of a different type together with the outcome of
the one coercion attempt. -/
inductive AddOperand where
  | sameType (y : PySeq)
  | differentType (outcome : CoerceOutcome)

/-- The success path of Sequence.__add__: copy = self.copy();
copy.seq += other.seq; return copy.  No validation is performed. -/
def concatCopy (x y : PySeq) : PySeq :=
  ⟨(Sequence.copy x).seq ++ y.seq, (Sequence.copy x).alphabet,
   (Sequence.copy x).anyChar, (Sequence.copy x).name⟩

/-- Sequence.__add__: a different-type operand is coerced exactly once via
single-argument construction of the same type; an AttributeError from that
attempt is converted into TypeError, any other exception propagates; on
success (and for a same-type operand) the concatenation is built on a
validation-skipped copy. -/
def Sequence.add (x : PySeq) (o : AddOperand) : Except PyErr PySeq :=
  match o with
  | AddOperand.sameType y => Except.ok (concatCopy x y)
  | AddOperand.differentType (CoerceOutcome.success y) => Except.ok (concatCopy x y)
  | AddOperand.differentType CoerceOutcome.attributeError => Except.error PyErr.typeError
  | AddOperand.differentType (CoerceOutcome.raises e) => Except.error e

/-- A Python number passed to Sequence.__mul__: an int or a float.  Floats
are modelled as rationals; the source only inspects n != int(n), which for
a float value q is q.den != 1. -/
inductive PyNum where
  | pyInt (n : Int)
  | pyFloat (q : ℚ)

/-- The value returned by Sequence.__mul__: sum([]) is the Python int 0,
otherwise a Sequence. -/
inductive MulResult where
  | int (n : Int)
  | seq (s : PySeq)
deriving DecidableEq

/-- new_string += new_string inside _decompose: Sequence.__add__ of the
accumulator with itself, i.e. a name-dropping copy with doubled seq. -/
def pyDouble (x : PySeq) : PySeq :=
  ⟨x.seq ++ x.seq, x.alphabet, x.anyChar, []⟩

/-- The digits of bin(n) for n > 0, least significant first, which is the
order the loop of _decompose reads binary[-counter].  Fuel-indexed to keep
the recursion structural; fuel at least n suffices. -/
def bitsAux : Nat → Nat → List Bool
  | _, 0 => []
  | 0, _ + 1 => []
  | fuel + 1, n + 1 => (((n + 1) % 2) == 1) :: bitsAux fuel ((n + 1) / 2)

/-- The digit list of bin(n) as _decompose reads it: bin(0) is the single
digit 0, otherwise the binary digits (least significant first here). -/
def pyBinary (n : Nat) : List Bool :=
  if n = 0 then [false] else bitsAux n n

/-- The generator _decompose: for each binary digit, yield the current
accumulator when the digit is set, then double the accumulator. -/
def decomposeSeqs (x : PySeq) : List Bool → List PySeq
  | [] => []
  | b :: bs => (if b then [x] else []) ++ decomposeSeqs (pyDouble x) bs

/-- Python sum over the yielded list: sum([]) is the int 0; otherwise
0 + first yields the first object itself (Sequence.__radd__), and each
further step is Sequence.__add__, a name-dropping copy with concatenated
seq. -/
def pySumSeqs : List PySeq → MulResult
  | [] => MulResult.int 0
  | p :: ps =>
      MulResult.seq (ps.foldl (fun acc q => ⟨acc.seq ++ q.seq, acc.alphabet, acc.anyChar, []⟩) p)

/-- Sequence.__mul__(n).  For a float, n != int(n) raises TypeError, and
an integral float then reaches bin(n) inside _decompose, which also raises
TypeError (bin rejects floats).  For an int, the n != int(n) check always
passes; a negative int makes bin(n)[2:] start with the letter b, so the
digit conversion int(x) raises ValueError; otherwise the yielded pieces
are summed. -/
def seqMul (x : PySeq) (n : PyNum) : Except PyErr MulResult :=
  match n with
  | PyNum.pyFloat q =>
      if q.den ≠ 1 then Except.error PyErr.typeError
      else Except.error PyErr.typeError
  | PyNum.pyInt m =>
      if m < 0 then Except.error PyErr.valueError
      else Except.ok (pySumSeqs (decomposeSeqs x (pyBinary m.toNat)))

/-- The state of a Feature instance, fields in constructor-assignment
order. -/
structure PyFeature where
  name : List Char
  start : Int
  stop : Int
  feature_type : List Char
  gene : List Char
  locus_tag : List Char
  qualifiers : List (List Char × List Char)
  strand : Int
  gaps : List (Int × Int)
  modified : Bool
deriving DecidableEq

/-- Feature.__eq__: the early-return chain over name, feature_type, start,
stop, strand and gaps, written as the equivalent conjunction.  gene,
locus_tag, qualifiers and modified are not inspected. -/
def Feature.beq (f g : PyFeature) : Bool :=
  decide (f.name = g.name) && decide (f.feature_type = g.feature_type) &&
  decide (f.start = g.start) && decide (f.stop = g.stop) &&
  decide (f.strand = g.strand) && decide (f.gaps = g.gaps)

/-- Feature.__ne__: if not self == other then True else False. -/
def Feature.bne (f g : PyFeature) : Bool :=
  if Feature.beq f g = true then false else true

/-- Feature.__init__: qualifiers and gaps default to empty, modified is
set to False, and feature_type must belong to featurenames (the list from
the genbank constants module, passed here as a parameter since that module
is outside the given sources), else ValueError. -/
def Feature.init (name : List Char) (start stop : Int) (feature_type : List Char)
    (gene locus_tag : List Char) (qualifiers : Option (List (List Char × List Char)))
    (strand : Int) (gaps : Option (List (Int × Int)))
    (featurenames : List (List Char)) : Except PyErr PyFeature :=
  if feature_type ∈ featurenames then
    Except.ok ⟨name, start, stop, feature_type, gene, locus_tag,
      qualifiers.getD [], strand, gaps.getD [], false⟩
  else
    Except.error PyErr.valueError

/-- Feature.copy: type(self)(name, start, stop, feature_type, gene=...,
locus_tag=..., qualifiers=..., strand=...).  The gaps argument is not
passed, so it defaults to the empty list, and the constructor resets
modified to False. -/
def Feature.copy (f : PyFeature) (featurenames : List (List Char)) : Except PyErr PyFeature :=
  Feature.init f.name f.start f.stop f.feature_type f.gene f.locus_tag
    (some f.qualifiers) f.strand none featurenames

/-- Modelled from the spec: the DNA complement mapping.  The alphabets
module holding the complement table is not among the given sources; the
spec describes a complement mapping such as A to T. -/
def dnaComplement (c : Char) : Char :=
  if c = 'A' then 'T'
  else if c = 'T' then 'A'
  else if c = 'G' then 'C'
  else if c = 'C' then 'G'
  else c

/-- Modelled from the spec: the reverse complement of a sequence. -/
def reverseComplement (s : List Char) : List Char :=
  (s.map dnaComplement).reverse

/-- Modelled from the spec: the forward-strand half of the annealing
engine on a linear template (the engine itself is outside the given
sources, which hold only its tests).  The binding region is located in the
template and each reported position is the match start plus the binding
length: the index immediately after the last annealed base on the forward
frame. -/
def annealForward (t p : List Char) : List Nat :=
  (linearMatches t p).map (fun i => i + p.length)

/-- Modelled from the spec: the reverse-strand half of the annealing
engine on a linear template.  The binding region is located in the reverse
complement of the template and positions are reported the same way in that
frame. -/
def annealReverse (t p : List Char) : List Nat :=
  (linearMatches (reverseComplement t) p).map (fun i => i + p.length)

/- Helper lemmas. -/

theorem charMatch_self (c : Char) : charMatch c c = true := by
  simp [charMatch]

theorem matchesFrom_append_self (p r : List Char) : matchesFrom p (p ++ r) = true := by
  induction p with
  | nil => rfl
  | cons c ps ih => simp [matchesFrom, charMatch_self, ih]

theorem matchesFrom_length_le :
    ∀ {p r : List Char}, matchesFrom p r = true → p.length ≤ r.length := by
  intro p
  induction p with
  | nil => intro r _; simp
  | cons c ps ih =>
    intro r h
    cases r with
    | nil => simp [matchesFrom] at h
    | cons d rs =>
      rw [matchesFrom, Bool.and_eq_true] at h
      simpa using Nat.succ_le_succ (ih h.2)

theorem matchesAt_bound {s p : List Char} {i : Nat} (hp : 1 ≤ p.length)
    (h : matchesAt s p i = true) : i + p.length ≤ s.length := by
  have hle := matchesFrom_length_le h
  rw [List.length_drop] at hle
  omega

theorem mem_linearMatches {s p : List Char} (hp : 1 ≤ p.length) (i : Nat) :
    i ∈ linearMatches s p ↔ matchesAt s p i = true := by
  constructor
  · intro h
    exact (List.mem_filter.mp h).2
  · intro h
    refine List.mem_filter.mpr ⟨List.mem_range.mpr ?_, h⟩
    have := matchesAt_bound hp h
    omega

theorem mem_linearMatches_lt {s p : List Char} (hp : 1 ≤ p.length) {i : Nat}
    (h : i ∈ linearMatches s p) : i < s.length := by
  have := matchesAt_bound hp (List.mem_filter.mp h).2
  omega

theorem linearMatches_sorted (s p : List Char) :
    (linearMatches s p).Pairwise (· < ·) :=
  (List.pairwise_lt_range _).filter _

theorem map_mod_id {l : List Nat} {n : Nat} (h : ∀ a ∈ l, a < n) :
    l.map (fun a => a % n) = l := by
  induction l with
  | nil => rfl
  | cons a t ih =>
    have ha : a % n = a := Nat.mod_eq_of_lt (h a (by simp))
    simp [ha, ih (fun b hb => h b (by simp [hb]))]

theorem translate_length (p : List Char) (a : Char) :
    (translate p a).length = p.length := by
  simp [translate]

theorem upperStr_length (s : List Char) : (upperStr s).length = s.length := by
  simp [upperStr]

theorem linearMatches_ne_nil_iff_any (s p : List Char) :
    linearMatches s p ≠ [] ↔
      ((List.range (s.length + 1)).any (fun i => matchesAt s p i)) = true := by
  rw [Ne, linearMatches, List.filter_eq_nil_iff, List.any_eq_true]
  push_neg
  constructor
  · rintro ⟨a, ha, hpa⟩
    exact ⟨a, ha, by simpa using hpa⟩
  · rintro ⟨a, ha, hpa⟩
    exact ⟨a, ha, by simpa using hpa⟩

theorem rc_append (a b : List Char) :
    reverseComplement (a ++ b) = reverseComplement b ++ reverseComplement a := by
  simp [reverseComplement]

theorem rc_length (s : List Char) :
    (reverseComplement s).length = s.length := by
  simp [reverseComplement]

theorem matchesFrom_take (l : List Char) (n : Nat) :
    matchesFrom (l.take n) l = true := by
  have h := matchesFrom_append_self (l.take n) (l.drop n)
  rwa [List.take_append_drop] at h

theorem validChars_iff (sq alphabet : List Char) :
    validChars sq alphabet = true ↔
      ∀ c ∈ sq, c ∈ alphabet ++ alphabet.map Char.toLower := by
  simp [validChars]

theorem init_eval (s alphabet : List Char) (anyChar : Char) (nm : Option (List Char)) :
    Sequence.init s alphabet false anyChar nm =
      if validChars (s.map Char.toUpper) alphabet then
        Except.ok ⟨s.map Char.toUpper, alphabet, anyChar, nm.getD []⟩
      else Except.error PyErr.alphabetError := rfl

theorem feature_beq_iff (f g : PyFeature) :
    Feature.beq f g = true ↔
      (f.name = g.name ∧ f.feature_type = g.feature_type ∧ f.start = g.start ∧
       f.stop = g.stop ∧ f.strand = g.strand ∧ f.gaps = g.gaps) := by
  simp [Feature.beq, and_assoc]

/- Claim theorems. -/

/-- C2: Sequence.__mul__ with n = 0 yields sum([]) which is the Python
int 0, not an empty Sequence of the same kind: the code contradicts the
claimed (and documented) return type at this input. -/
theorem mul_zero_returns_int_zero :
    seqMul ⟨['A', 'T'], ['A', 'T', 'G', 'C'], 'N', []⟩ (PyNum.pyInt 0) =
      Except.ok (MulResult.int 0) := rfl

/-- C3 counterexample: Sequence.__mul__ with n = -1 raises ValueError
(int of the letter b inside the binary decomposition), not the TypeError
asserted by the claim. -/
theorem mul_neg_one_not_type_error_cex :
    seqMul ⟨['A', 'T'], ['A', 'T', 'G', 'C'], 'N', []⟩ (PyNum.pyInt (-1)) =
        Except.error PyErr.valueError ∧
      PyErr.valueError ≠ PyErr.typeError :=
  ⟨rfl, by decide⟩

/-- C3 amended: every float operand raises TypeError before any result is
constructed (a non-integral float at the n != int(n) check, an integral
float at bin(n)); every negative int raises ValueError before any result
is constructed. -/
theorem mul_error_taxonomy :
    (∀ (x : PySeq) (q : ℚ), seqMul x (PyNum.pyFloat q) = Except.error PyErr.typeError) ∧
    (∀ (x : PySeq) (m : Int), m < 0 →
      seqMul x (PyNum.pyInt m) = Except.error PyErr.valueError) := by
  constructor
  · intro x q
    simp [seqMul]
  · intro x m hm
    simp [seqMul, hm]

/-- C3 witness: the amended statement at concrete inputs. -/
theorem mul_error_taxonomy_witness :
    seqMul ⟨['A'], ['A'], 'N', []⟩ (PyNum.pyFloat (5 / 2)) = Except.error PyErr.typeError ∧
    ((-1 : Int) < 0 ∧
      seqMul ⟨['A'], ['A'], 'N', []⟩ (PyNum.pyInt (-1)) = Except.error PyErr.valueError) :=
  ⟨mul_error_taxonomy.1 ⟨['A'], ['A'], 'N', []⟩ (5 / 2),
   by decide,
   mul_error_taxonomy.2 ⟨['A'], ['A'], 'N', []⟩ (-1) (by decide)⟩

/-- C5 counterexample: Sequence.copy does not pass the name to the
constructor, so the name of the copy is the empty string, not the name of
the original. -/
theorem copy_drops_name_cex :
    (Sequence.copy ⟨['A', 'T'], ['A', 'T', 'G', 'C'], 'N', ['p', 'l', 'm']⟩).name ≠
      (⟨['A', 'T'], ['A', 'T', 'G', 'C'], 'N', ['p', 'l', 'm']⟩ : PySeq).name := by
  decide

/-- C5 amended: copy returns a sequence of the same kind with identical
seq, alphabet and any_char, built through the skip_checks construction
path, and with the name reset to the empty string. -/
theorem copy_preserves_fields_resets_name (x : PySeq) :
    Sequence.init x.seq x.alphabet true x.anyChar none = Except.ok (Sequence.copy x) ∧
    (Sequence.copy x).seq = x.seq ∧
    (Sequence.copy x).alphabet = x.alphabet ∧
    (Sequence.copy x).anyChar = x.anyChar ∧
    (Sequence.copy x).name = [] :=
  ⟨rfl, rfl, rfl, rfl, rfl⟩

/-- C6: Sequence.__add__ makes exactly one coercion attempt for a
different-type operand; an operand with no residue representation (an
AttributeError from the attempt) raises TypeError; on success the result
is the unvalidated concatenation of the residues and carries the left
alphabet, wildcard character, and the empty name of the copy. -/
theorem add_coercion_behavior :
    (∀ x : PySeq,
      Sequence.add x (AddOperand.differentType CoerceOutcome.attributeError) =
        Except.error PyErr.typeError) ∧
    (∀ x y : PySeq,
      Sequence.add x (AddOperand.differentType (CoerceOutcome.success y)) =
        Except.ok (⟨x.seq ++ y.seq, x.alphabet, x.anyChar, []⟩ : PySeq)) ∧
    (∀ x y : PySeq,
      Sequence.add x (AddOperand.sameType y) =
        Except.ok (⟨x.seq ++ y.seq, x.alphabet, x.anyChar, []⟩ : PySeq)) :=
  ⟨fun _ => rfl, fun _ _ => rfl, fun _ _ => rfl⟩

/-- C8: Feature equality is the pure structural comparison of name,
feature_type, start, stop, strand and gaps; it ignores gene, locus_tag and
qualifiers; it is reflexive and symmetric; inequality is its exact
negation. -/
theorem feature_equality_structural :
    (∀ f g : PyFeature,
      Feature.beq f g = true ↔
        (f.name = g.name ∧ f.feature_type = g.feature_type ∧ f.start = g.start ∧
         f.stop = g.stop ∧ f.strand = g.strand ∧ f.gaps = g.gaps)) ∧
    (∀ f : PyFeature, Feature.beq f f = true) ∧
    (∀ f g : PyFeature, Feature.beq f g = Feature.beq g f) ∧
    (∀ (f : PyFeature) (q : List (List Char × List Char)) (gn lt : List Char),
      Feature.beq f
        ⟨f.name, f.start, f.stop, f.feature_type, gn, lt, q, f.strand, f.gaps,
         f.modified⟩ = true) ∧
    (∀ f g : PyFeature, Feature.bne f g = !(Feature.beq f g)) := by
  refine ⟨feature_beq_iff, ?_, ?_, ?_, ?_⟩
  · intro f
    exact (feature_beq_iff f f).mpr ⟨rfl, rfl, rfl, rfl, rfl, rfl⟩
  · intro f g
    rw [Bool.eq_iff_iff, feature_beq_iff, feature_beq_iff]
    constructor
    · rintro ⟨h1, h2, h3, h4, h5, h6⟩
      exact ⟨h1.symm, h2.symm, h3.symm, h4.symm, h5.symm, h6.symm⟩
    · rintro ⟨h1, h2, h3, h4, h5, h6⟩
      exact ⟨h1.symm, h2.symm, h3.symm, h4.symm, h5.symm, h6.symm⟩
  · intro f q gn lt
    exact (feature_beq_iff _ _).mpr ⟨rfl, rfl, rfl, rfl, rfl, rfl⟩
  · intro f g
    rw [Feature.bne]
    cases Feature.beq f g <;> simp

/-- C4 counterexample: an alphabet whose symbol list is the lowercase
letter a rejects the string consisting of that very symbol, because the
validation checks the uppercased string against symbols plus lowercased
symbols.  Every character of the input does lie in the symbol list, so the
claimed success condition holds while construction fails. -/
theorem init_lowercase_alphabet_cex :
    Sequence.init ['a'] ['a'] false 'N' none = Except.error PyErr.alphabetError ∧
    ∀ c ∈ (['a'] : List Char),
      c ∈ (['a'] : List Char) ++ (['a'] : List Char).map Char.toLower :=
  ⟨rfl, by decide⟩

/-- C4 amended: validated construction succeeds iff every character of the
uppercased input lies in symbols plus lowercased symbols, fails with
AlphabetError otherwise, and on success stores exactly the uppercased
input. -/
theorem init_validation_characterization (s alphabet : List Char) (anyChar : Char)
    (nm : Option (List Char)) :
    ((∃ y, Sequence.init s alphabet false anyChar nm = Except.ok y) ↔
      ∀ c ∈ s.map Char.toUpper, c ∈ alphabet ++ alphabet.map Char.toLower) ∧
    (∀ y, Sequence.init s alphabet false anyChar nm = Except.ok y →
      y.seq = s.map Char.toUpper) ∧
    ((¬ ∀ c ∈ s.map Char.toUpper, c ∈ alphabet ++ alphabet.map Char.toLower) →
      Sequence.init s alphabet false anyChar nm = Except.error PyErr.alphabetError) := by
  by_cases hv : validChars (s.map Char.toUpper) alphabet = true
  · refine ⟨⟨fun _ => (validChars_iff _ _).mp hv,
      fun _ => ⟨⟨s.map Char.toUpper, alphabet, anyChar, nm.getD []⟩, ?_⟩⟩,
      fun y hy => ?_, fun hall => absurd ((validChars_iff _ _).mp hv) hall⟩
    · rw [init_eval, if_pos hv]
    · rw [init_eval, if_pos hv] at hy
      injection hy with h
      rw [← h]
  · have hv2 : ¬ ∀ c ∈ s.map Char.toUpper, c ∈ alphabet ++ alphabet.map Char.toLower :=
      fun hall => hv ((validChars_iff _ _).mpr hall)
    refine ⟨⟨?_, fun hall => absurd hall hv2⟩, fun y hy => ?_, fun _ => ?_⟩
    · rintro ⟨y, hy⟩
      rw [init_eval, if_neg hv] at hy
      exact Except.noConfusion hy
    · rw [init_eval, if_neg hv] at hy
      exact Except.noConfusion hy
    · rw [init_eval, if_neg hv]

/-- C4 witness: the amended statement at a concrete valid input. -/
theorem init_validation_witness :
    (∀ c ∈ (['a', 't'] : List Char).map Char.toUpper,
      c ∈ (['A', 'T'] : List Char) ++ (['A', 'T'] : List Char).map Char.toLower) ∧
    (∃ y, Sequence.init ['a', 't'] ['A', 'T'] false 'N' none = Except.ok y) :=
  ⟨by decide,
   (init_validation_characterization ['a', 't'] ['A', 'T'] 'N' none).1.mpr (by decide)⟩

/-- C10: Feature.copy omits the gaps argument and the constructor resets
modified, so every copy has empty gaps and modified False; hence a feature
with nonempty gaps is not equal to its own copy under Feature equality. -/
theorem feature_copy_resets_gaps_modified (f : PyFeature) (fns : List (List Char))
    (h : f.feature_type ∈ fns) :
    ∃ g, Feature.copy f fns = Except.ok g ∧ g.gaps = [] ∧ g.modified = false ∧
      (f.gaps ≠ [] → Feature.beq g f = false) := by
  refine ⟨⟨f.name, f.start, f.stop, f.feature_type, f.gene, f.locus_tag, f.qualifiers,
    f.strand, [], false⟩, ?_, rfl, rfl, ?_⟩
  · unfold Feature.copy Feature.init
    rw [if_pos h]
    rfl
  · intro hg
    have hne : ¬(([] : List (Int × Int)) = f.gaps) := fun hh => hg hh.symm
    simp [Feature.beq, hne]

/-- C10 witness: a concrete feature with nonempty gaps and modified True. -/
theorem feature_copy_witness :
    ((⟨['f'], 0, 5, ['m'], [], [], [], 0, [(1, 2)], true⟩ : PyFeature).feature_type ∈
      ([['m']] : List (List Char))) ∧
    (∃ g, Feature.copy ⟨['f'], 0, 5, ['m'], [], [], [], 0, [(1, 2)], true⟩ [['m']] =
      Except.ok g ∧ g.gaps = [] ∧ g.modified = false ∧
      ((⟨['f'], 0, 5, ['m'], [], [], [], 0, [(1, 2)], true⟩ : PyFeature).gaps ≠ [] →
        Feature.beq g ⟨['f'], 0, 5, ['m'], [], [], [], 0, [(1, 2)], true⟩ = false)) :=
  ⟨by decide, feature_copy_resets_gaps_modified _ _ (by decide)⟩

/-- C1 counterexample: on the sequence AB the pattern BA matches the
circular ring at index 1 (B at index 1, A at the wrapped index 0), yet
Sequence.locate returns the empty list: the wrap-spanning occurrence is
not reported. -/
theorem locate_no_wraparound_cex :
    circularMatchAt ['A', 'B'] (translate (upperStr ['B', 'A']) 'N') 1 = true ∧
    Sequence.locate ⟨['A', 'B'], ['A', 'B'], 'N', []⟩ ['B', 'A'] = Except.ok [] :=
  ⟨rfl, rfl⟩

/-- C1 amended: for a nonempty pattern no longer than the sequence, locate
returns exactly the ascending list of all linear (non-wrapping) match
positions of the uppercased, wildcard-translated pattern, overlapping
matches included; the modulo reduction is the identity on them. -/
theorem locate_linear_matches (x : PySeq) (p : List Char)
    (h1 : 1 ≤ p.length) (h2 : p.length ≤ x.seq.length) :
    Sequence.locate x p =
        Except.ok (linearMatches x.seq (translate (upperStr p) x.anyChar)) ∧
    (linearMatches x.seq (translate (upperStr p) x.anyChar)).Pairwise (· < ·) ∧
    ∀ i, i ∈ linearMatches x.seq (translate (upperStr p) x.anyChar) ↔
      matchesAt x.seq (translate (upperStr p) x.anyChar) i = true := by
  have hq : 1 ≤ (translate (upperStr p) x.anyChar).length := by
    rw [translate_length, upperStr_length]
    exact h1
  refine ⟨?_, linearMatches_sorted _ _, fun i => mem_linearMatches hq i⟩
  unfold Sequence.locate
  rw [if_neg (show ¬ p.length > x.seq.length by omega),
    if_neg (show ¬(x.seq.length = 0 ∧
      linearMatches x.seq (translate (upperStr p) x.anyChar) ≠ []) by
        rintro ⟨h0, -⟩
        omega)]
  exact congrArg Except.ok (map_mod_id (fun a ha => mem_linearMatches_lt hq ha))

/-- C1 witness: the amended statement at a concrete input. -/
theorem locate_linear_matches_witness :
    (1 ≤ (['A', 'T'] : List Char).length ∧
      (['A', 'T'] : List Char).length ≤
        (⟨['A', 'T', 'A'], ['A', 'T'], 'N', []⟩ : PySeq).seq.length) ∧
    Sequence.locate ⟨['A', 'T', 'A'], ['A', 'T'], 'N', []⟩ ['A', 'T'] =
      Except.ok (linearMatches (⟨['A', 'T', 'A'], ['A', 'T'], 'N', []⟩ : PySeq).seq
        (translate (upperStr ['A', 'T'])
          (⟨['A', 'T', 'A'], ['A', 'T'], 'N', []⟩ : PySeq).anyChar)) :=
  ⟨⟨by decide, by decide⟩,
   (locate_linear_matches ⟨['A', 'T', 'A'], ['A', 'T'], 'N', []⟩ ['A', 'T']
      (by decide) (by decide)).1⟩

/-- C7 counterexample: on the empty sequence with the empty pattern,
locate raises ZeroDivisionError (index 0 modulo length 0) and so returns
no list at all, while contains returns True. -/
theorem locate_contains_empty_cex :
    Sequence.locate ⟨[], ['A'], 'N', []⟩ [] = Except.error PyErr.zeroDivisionError ∧
    Sequence.contains ⟨[], ['A'], 'N', []⟩ [] = true :=
  ⟨rfl, rfl⟩

/-- C7 amended: for a sequence of length at least one and a non-wildcard
pattern no longer than the sequence, locate returns a nonempty list iff
contains is true. -/
theorem locate_nonempty_iff_contains (x : PySeq) (p : List Char)
    (_hw : x.anyChar ∉ upperStr p)
    (h2 : p.length ≤ x.seq.length) (hs : 1 ≤ x.seq.length) :
    (∃ l, Sequence.locate x p = Except.ok l ∧ l ≠ []) ↔
      Sequence.contains x p = true := by
  have hloc : Sequence.locate x p =
      Except.ok ((linearMatches x.seq (translate (upperStr p) x.anyChar)).map
        (fun i => i % x.seq.length)) := by
    unfold Sequence.locate
    rw [if_neg (show ¬ p.length > x.seq.length by omega),
      if_neg (show ¬(x.seq.length = 0 ∧
        linearMatches x.seq (translate (upperStr p) x.anyChar) ≠ []) by
          rintro ⟨h0, -⟩
          omega)]
  unfold Sequence.contains
  constructor
  · rintro ⟨l, hl, hne⟩
    rw [hloc] at hl
    injection hl with h
    have hraw : linearMatches x.seq (translate (upperStr p) x.anyChar) ≠ [] := by
      intro h0
      apply hne
      rw [← h, h0]
      rfl
    exact (linearMatches_ne_nil_iff_any _ _).mp hraw
  · intro hc
    have hraw := (linearMatches_ne_nil_iff_any x.seq
      (translate (upperStr p) x.anyChar)).mpr hc
    refine ⟨_, hloc, ?_⟩
    rw [Ne, List.map_eq_nil_iff]
    exact hraw

/-- C7 witness: the amended statement at a concrete input. -/
theorem locate_nonempty_iff_contains_witness :
    ((⟨['A', 'T'], ['A', 'T', 'G', 'C'], 'N', []⟩ : PySeq).anyChar ∉ upperStr ['A'] ∧
      (['A'] : List Char).length ≤
        (⟨['A', 'T'], ['A', 'T', 'G', 'C'], 'N', []⟩ : PySeq).seq.length ∧
      1 ≤ (⟨['A', 'T'], ['A', 'T', 'G', 'C'], 'N', []⟩ : PySeq).seq.length) ∧
    ((∃ l, Sequence.locate ⟨['A', 'T'], ['A', 'T', 'G', 'C'], 'N', []⟩ ['A'] =
        Except.ok l ∧ l ≠ []) ↔
      Sequence.contains ⟨['A', 'T'], ['A', 'T', 'G', 'C'], 'N', []⟩ ['A'] = true) :=
  ⟨⟨by decide, by decide, by decide⟩,
   locate_nonempty_iff_contains ⟨['A', 'T'], ['A', 'T', 'G', 'C'], 'N', []⟩ ['A']
     (by decide) (by decide) (by decide)⟩

/-- C9: against the spec-modelled annealing engine, a primer equal to a
literal template substring starting at index i of length L yields a
forward match reported at i + L, and its reverse complement used as primer
yields a reverse match reported at length - i, the mirrored coordinate of
i in the reverse frame. -/
theorem anneal_substring_positions (t : List Char) (i L : Nat)
    (h1 : 1 ≤ L) (h2 : i + L ≤ t.length) :
    (i + L) ∈ annealForward t ((t.drop i).take L) ∧
    (t.length - i) ∈ annealReverse t (reverseComplement ((t.drop i).take L)) := by
  have hPlen : ((t.drop i).take L).length = L := by
    rw [List.length_take, List.length_drop]
    omega
  have hPq : 1 ≤ ((t.drop i).take L).length := by
    rw [hPlen]
    exact h1
  have hfwd : matchesAt t ((t.drop i).take L) i = true := matchesFrom_take (t.drop i) L
  have hmem : i ∈ linearMatches t ((t.drop i).take L) := (mem_linearMatches hPq i).mpr hfwd
  have fwd : (i + L) ∈ annealForward t ((t.drop i).take L) := by
    unfold annealForward
    rw [hPlen]
    exact List.mem_map.mpr ⟨i, hmem, rfl⟩
  have ht : t = t.take i ++ ((t.drop i).take L ++ (t.drop i).drop L) := by
    rw [List.take_append_drop, List.take_append_drop]
  have hBlen : ((t.drop i).drop L).length = t.length - (i + L) := by
    rw [List.length_drop, List.length_drop]
    omega
  have hrc : reverseComplement t =
      reverseComplement ((t.drop i).drop L) ++
        (reverseComplement ((t.drop i).take L) ++ reverseComplement (t.take i)) := by
    conv_lhs => rw [ht]
    rw [rc_append, rc_append, List.append_assoc]
  have hrev : matchesAt (reverseComplement t) (reverseComplement ((t.drop i).take L))
      (t.length - (i + L)) = true := by
    show matchesFrom (reverseComplement ((t.drop i).take L))
      ((reverseComplement t).drop (t.length - (i + L))) = true
    have hd : t.length - (i + L) = (reverseComplement ((t.drop i).drop L)).length := by
      rw [rc_length, hBlen]
    rw [hrc, hd, List.drop_left]
    exact matchesFrom_append_self _ _
  have hrcPlen : (reverseComplement ((t.drop i).take L)).length = L := by
    rw [rc_length, hPlen]
  have hrq : 1 ≤ (reverseComplement ((t.drop i).take L)).length := by
    rw [hrcPlen]
    exact h1
  have hmem2 : (t.length - (i + L)) ∈
      linearMatches (reverseComplement t) (reverseComplement ((t.drop i).take L)) :=
    (mem_linearMatches hrq _).mpr hrev
  have rev : (t.length - i) ∈ annealReverse t (reverseComplement ((t.drop i).take L)) := by
    unfold annealReverse
    rw [hrcPlen]
    exact List.mem_map.mpr ⟨t.length - (i + L), hmem2, by omega⟩
  exact ⟨fwd, rev⟩

/-- C9 witness: template ACGTAC, substring CGT at index 1 of length 3. -/
theorem anneal_substring_positions_witness :
    (1 ≤ 3 ∧ 1 + 3 ≤ (['A', 'C', 'G', 'T', 'A', 'C'] : List Char).length) ∧
    ((1 + 3) ∈ annealForward ['A', 'C', 'G', 'T', 'A', 'C']
        (((['A', 'C', 'G', 'T', 'A', 'C'] : List Char).drop 1).take 3) ∧
      ((['A', 'C', 'G', 'T', 'A', 'C'] : List Char).length - 1) ∈
        annealReverse ['A', 'C', 'G', 'T', 'A', 'C']
          (reverseComplement (((['A', 'C', 'G', 'T', 'A', 'C'] : List Char).drop 1).take 3))) :=
  ⟨⟨by decide, by decide⟩,
   anneal_substring_positions ['A', 'C', 'G', 'T', 'A', 'C'] 1 3 (by decide) (by decide)⟩

end Coral
